import Mathlib

/-!
Shallow embedding of the protonmail-mcp server's validation, normalization
and admission-control pipeline (`src/index.ts`), together with the health
reporter. JavaScript strings are modelled as Lean `String`; JS `Date.now()`
timestamps as `Int` milliseconds; the possibly-NaN parsed rate limit as
`Option Int` (`none` = non-finite). The external mail transport and the
SMTP verify probe are parameters: a transport call result is
`Except String (Option String)` (failure message, or an optional message id).
-/

namespace ProtonMcp

deriving instance DecidableEq for Except

/-- Error codes of the MCP error taxonomy actually used by `src/index.ts`. -/
inductive ErrorCode where
  | invalidParams
  | invalidRequest
  | internalError
  | methodNotFound
deriving DecidableEq, Repr

/-- `McpError(code, message)` as thrown by the handlers. -/
structure McpError where
  code : ErrorCode
  message : String
deriving DecidableEq, Repr

/-- JS whitespace recognized by `String.prototype.trim` (the subset relevant
here: ASCII blanks plus NBSP and BOM). -/
def jsIsWhitespace (c : Char) : Bool :=
  c == ' ' || c == '\t' || c == '\n' || c == '\r' || c == '\x0b' || c == '\x0c' ||
  c == '\u00A0' || c == '\uFEFF'

/-- JS `value.trim()`: strip leading and trailing whitespace. -/
def jsTrim (s : String) : String :=
  ⟨((s.data.dropWhile jsIsWhitespace).reverse.dropWhile jsIsWhitespace).reverse⟩

/-- Auxiliary for `jsSplitComma`: accumulates the current piece (reversed). -/
def splitCommaAux : List Char → List Char → List String
  | [], acc => [⟨acc.reverse⟩]
  | c :: rest, acc =>
      if c = ',' then ⟨acc.reverse⟩ :: splitCommaAux rest []
      else splitCommaAux rest (c :: acc)

/-- JS `value.split(",")` (note `"".split(",") = [""]`). -/
def jsSplitComma (s : String) : List String :=
  splitCommaAux s.data []

/-- `HEADER_INJECTION_PATTERN = /[\r\n]/` applied via `.test(value)`. -/
def hasCRLF (s : String) : Bool :=
  s.data.any fun c => c == '\r' || c == '\n'

/-- CR/LF test lifted to an optional field (`undefined` has no characters). -/
def optHasCRLF : Option String → Bool
  | none => false
  | some s => hasCRLF s

/-- `sanitizeHeaderField(value, fieldName)`: reject CR/LF, else trim. -/
def sanitizeHeaderField (value : String) (fieldName : String) : Except McpError String :=
  if hasCRLF value then
    .error ⟨.invalidParams, "'" ++ fieldName ++ "' cannot include newline characters"⟩
  else
    .ok (jsTrim value)

/-- `normalizeRecipientList(rawValue, fieldName)`. `none` models JS
`undefined`; the empty string is falsy in JS, hence also yields `[]`. -/
def normalizeRecipientList : Option String → String → Except McpError (List String)
  | none, _ => .ok []
  | some s, fieldName =>
      if s = "" then .ok []
      else if hasCRLF s then
        .error ⟨.invalidParams, "'" ++ fieldName ++ "' cannot include newline characters"⟩
      else
        .ok (((jsSplitComma s).map jsTrim).filter fun entry => entry.length > 0)

/-- Raw arguments of the `send_email` tool after JSON shape typing
(zod's type layer); the value-level constraints live in `sendEmailSchemaIssues`. -/
structure RawSendEmailArgs where
  «to» : String
  subject : String
  body : String
  isHtml : Option Bool
  cc : Option String
  bcc : Option String
deriving DecidableEq, Repr

/-- Value-level issues of `sendEmailSchema` (zod): min/max length checks per
field, rendered as `"<path>: <message>"` as `parseSendEmailArgs` does. -/
def sendEmailSchemaIssues (a : RawSendEmailArgs) : List String :=
  (if a.«to».length < 1 then ["to: 'to' is required"] else []) ++
  (if a.«to».length > 2048 then ["to: String must contain at most 2048 character(s)"] else []) ++
  (if a.subject.length < 1 then ["subject: 'subject' is required"] else []) ++
  (if a.subject.length > 512 then ["subject: String must contain at most 512 character(s)"] else []) ++
  (if a.body.length < 1 then ["body: 'body' is required"] else []) ++
  (if a.body.length > 20000 then ["body: String must contain at most 20000 character(s)"] else [])

/-- `parseSendEmailArgs(args)`: zod parse; on failure the issues are joined
with `"; "` into one `InvalidParams` error. -/
def parseSendEmailArgs (a : RawSendEmailArgs) : Except McpError RawSendEmailArgs :=
  if (sendEmailSchemaIssues a).isEmpty then .ok a
  else .error ⟨.invalidParams, String.intercalate "; " (sendEmailSchemaIssues a)⟩

/-- `NormalizedEmailArgs` of `src/index.ts`. -/
structure NormalizedEmailArgs where
  «to» : List String
  subject : String
  body : String
  isHtml : Bool
  cc : List String
  bcc : List String
deriving DecidableEq, Repr

/-- `normalizeEmailArgs(rawArgs)`: normalize `to`, require it non-empty,
normalize `cc`/`bcc`, sanitize `subject`. -/
def normalizeEmailArgs (a : RawSendEmailArgs) : Except McpError NormalizedEmailArgs :=
  match normalizeRecipientList (some a.«to») "to" with
  | .error e => .error e
  | .ok toList =>
      if toList.isEmpty then
        .error ⟨.invalidParams, "At least one recipient is required"⟩
      else
        match normalizeRecipientList a.cc "cc" with
        | .error e => .error e
        | .ok ccList =>
            match normalizeRecipientList a.bcc "bcc" with
            | .error e => .error e
            | .ok bccList =>
                match sanitizeHeaderField a.subject "subject" with
                | .error e => .error e
                | .ok subject =>
                    .ok ⟨toList, subject, a.body, a.isHtml == some true, ccList, bccList⟩

/-- JS `value.toLowerCase()` restricted to its ASCII action (email
addresses in this pipeline are ASCII). -/
def jsToLowerChar (c : Char) : Char :=
  if 'A' ≤ c ∧ c ≤ 'Z' then Char.ofNat (c.toNat + 32) else c

/-- JS `value.toLowerCase()` on a whole string. -/
def jsToLower (s : String) : String :=
  ⟨s.data.map jsToLowerChar⟩

/-- `enforceAllowList(recipients)`. `allowList` holds the elements of the
configured `ALLOW_LIST` set (already lower-cased at startup); the guard is
enabled exactly when the set is non-empty. -/
def enforceAllowList (allowList : List String) (recipients : List String) :
    Except McpError Unit :=
  if allowList.isEmpty then .ok ()
  else if (recipients.filter fun recipient =>
      !(allowList.contains (jsToLower recipient))).isEmpty then .ok ()
  else
    .error ⟨.invalidRequest,
      "Recipient(s) not permitted by allow list: " ++ String.intercalate ", "
        (recipients.filter fun recipient => !(allowList.contains (jsToLower recipient)))⟩

/-- The in-memory `rateLimiterState`. -/
structure RateLimiterState where
  windowStart : Int
  count : Nat
deriving DecidableEq, Repr

/-- `checkRateLimit()`. `limit` is the parsed `RATE_LIMIT_PER_MINUTE`
(`none` = NaN from `parseInt`); `now` is `Date.now()`. Returns the check
outcome together with the (possibly mutated) limiter state. -/
def checkRateLimit (limit : Option Int) (now : Int) (st : RateLimiterState) :
    Except McpError Unit × RateLimiterState :=
  match limit with
  | none => (.ok (), st)
  | some L =>
      if L ≤ 0 then (.ok (), st)
      else
        let st1 := if now - st.windowStart ≥ 60000 then ⟨now, 0⟩ else st
        if (st1.count : Int) ≥ L then
          (.error ⟨.invalidRequest,
            "Rate limit exceeded (" ++ toString L ++ " emails per minute)"⟩, st1)
        else
          (.ok (), ⟨st1.windowStart, st1.count + 1⟩)

/-- `lastSendResult`'s tagged payload. -/
inductive LastSendResult where
  | success (timestamp : Int) (details : Option String)
  | failure (timestamp : Int) (error : String)
deriving DecidableEq, Repr

/-- The process-wide mutable state read and written by the tool handlers. -/
structure ServerState where
  rateLimiter : RateLimiterState
  lastSendResult : Option LastSendResult
deriving DecidableEq, Repr

/-- Success reply text of the `send_email` handler. -/
def sendSuccessText (n : NormalizedEmailArgs) : String :=
  "Email sent successfully to " ++ String.intercalate ", " n.«to» ++
  (if n.cc.isEmpty then "" else " (CC: " ++ String.intercalate ", " n.cc ++ ")") ++
  (if n.bcc.isEmpty then "" else " (BCC: " ++ String.intercalate ", " n.bcc ++ ")") ++ "."

/-- Result of one `send_email` tool invocation: the MCP reply or error, the
state after the call, and whether `emailService.sendEmail` was invoked. -/
structure SendEmailOutcome where
  result : Except McpError String
  state : ServerState
  transportInvoked : Bool
deriving DecidableEq, Repr

/-- The `send_email` branch of the `CallToolRequestSchema` handler:
parse → normalize → allow list over `to ++ cc ++ bcc` → rate limit →
transport → record outcome. `now` is `Date.now()` at the rate-limit check,
`sendTime` is `Date.now()` when the outcome is recorded, and `transport`
is the result of the awaited `emailService.sendEmail` call. -/
def handleSendEmail (allowList : List String) (limit : Option Int)
    (now sendTime : Int) (transport : Except String (Option String))
    (args : RawSendEmailArgs) (st : ServerState) : SendEmailOutcome :=
  match parseSendEmailArgs args with
  | .error e => ⟨.error e, st, false⟩
  | .ok parsed =>
      match normalizeEmailArgs parsed with
      | .error e => ⟨.error e, st, false⟩
      | .ok n =>
          match enforceAllowList allowList (n.«to» ++ n.cc ++ n.bcc) with
          | .error e => ⟨.error e, st, false⟩
          | .ok _ =>
              match checkRateLimit limit now st.rateLimiter with
              | (.error e, rl) => ⟨.error e, ⟨rl, st.lastSendResult⟩, false⟩
              | (.ok _, rl) =>
                  match transport with
                  | .ok messageId =>
                      ⟨.ok (sendSuccessText n),
                       ⟨rl, some (.success sendTime messageId)⟩, true⟩
                  | .error m =>
                      ⟨.error ⟨.internalError, "Failed to send email: " ++ m⟩,
                       ⟨rl, some (.failure sendTime m)⟩, true⟩

/-- The `Rate limit:` section of the health report. -/
def rateLimitInfo (limit : Option Int) (count : Nat) : String :=
  match limit with
  | none => "disabled"
  | some L =>
      if L > 0 then toString count ++ "/" ++ toString L ++ " in current minute window"
      else "disabled"

/-- The `Allow list:` section of the health report. -/
def allowListInfo (allowList : List String) : String :=
  if allowList.isEmpty then "disabled"
  else "enabled (" ++ toString allowList.length ++ " entries)"

/-- The `Last send:` section of the health report. `iso` abstracts
`new Date(ts).toISOString()` (an empty `details` string is falsy in JS,
hence rendered without parentheses). -/
def lastSendInfo (iso : Int → String) : Option LastSendResult → String
  | none => "no attempts yet"
  | some (.success ts details) =>
      "success at " ++ iso ts ++
        (match details with
         | some d => if d = "" then "" else " (" ++ d ++ ")"
         | none => "")
  | some (.failure ts msg) => "error at " ++ iso ts ++ ": " ++ msg

/-- The last three lines of the health report (rate limit, allow list,
last send), independent of the connectivity probe. -/
def healthReportTail (limit : Option Int) (allowList : List String)
    (iso : Int → String) (st : ServerState) : String :=
  "Rate limit: " ++ rateLimitInfo limit st.rateLimiter.count ++ "\n" ++
  "Allow list: " ++ allowListInfo allowList ++ "\n" ++
  "Last send: " ++ lastSendInfo iso st.lastSendResult

/-- `buildHealthReport()`. `verify` is the outcome of the awaited
`emailService.verifyConnection()` probe (caught defensively); the four
lines are joined with `"\n"`. -/
def buildHealthReport (verify : Except String Unit) (limit : Option Int)
    (allowList : List String) (iso : Int → String) (st : ServerState) : String :=
  let smtpStatus := match verify with
    | .ok _ => "ok"
    | .error m => "error: " ++ m
  "SMTP: " ++ smtpStatus ++ "\n" ++ healthReportTail limit allowList iso st

/-- The `health_check` branch of the handler: it builds the report and
touches no server state; it never produces an `McpError`. -/
def handleHealthCheck (verify : Except String Unit) (limit : Option Int)
    (allowList : List String) (iso : Int → String) (st : ServerState) :
    Except McpError String × ServerState :=
  (.ok (buildHealthReport verify limit allowList iso st), st)

/-- `allowedTlsVersions`, listed as in the source — oldest protocol first. -/
def allowedTlsVersions : List String :=
  ["TLSv1", "TLSv1.1", "TLSv1.2", "TLSv1.3"]

/-- `normalizeTlsVersion(version)`. -/
def normalizeTlsVersion (version : String) : String :=
  if allowedTlsVersions.contains version then version else "TLSv1.2"

theorem normalizeRecipientList_error_code {o : Option String} {f : String} {e : McpError}
    (h : normalizeRecipientList o f = .error e) : e.code = .invalidParams := by
  cases o with
  | none => exact Except.noConfusion h
  | some s =>
    simp only [normalizeRecipientList] at h
    split at h
    · exact Except.noConfusion h
    · split at h
      · injection h with h
        subst h; rfl
      · exact Except.noConfusion h

theorem sanitizeHeaderField_error_code {v f : String} {e : McpError}
    (h : sanitizeHeaderField v f = .error e) : e.code = .invalidParams := by
  unfold sanitizeHeaderField at h
  split at h
  · injection h with h
    subst h; rfl
  · exact Except.noConfusion h

theorem sanitizeHeaderField_ok {v f r : String}
    (h : sanitizeHeaderField v f = .ok r) : hasCRLF v = false ∧ r = jsTrim v := by
  unfold sanitizeHeaderField at h
  split at h
  · exact Except.noConfusion h
  · injection h with h
    exact ⟨by simpa using ‹¬hasCRLF v = true›, h.symm⟩

theorem normalizeRecipientList_ok_noCRLF {s f : String} {l : List String}
    (h : normalizeRecipientList (some s) f = .ok l) : hasCRLF s = false := by
  simp only [normalizeRecipientList] at h
  split at h
  · rename_i hs
    subst hs; decide
  · split at h
    · exact Except.noConfusion h
    · simpa using ‹¬hasCRLF s = true›

theorem normalizeRecipientList_opt_ok_noCRLF {o : Option String} {f : String} {l : List String}
    (h : normalizeRecipientList o f = .ok l) : optHasCRLF o = false := by
  cases o with
  | none => rfl
  | some s => exact normalizeRecipientList_ok_noCRLF h

theorem normalizeRecipientList_ok_cases {s f : String} {l : List String}
    (h : normalizeRecipientList (some s) f = .ok l) :
    (s = "" ∧ l = []) ∨
      l = ((jsSplitComma s).map jsTrim).filter (fun entry => entry.length > 0) := by
  simp only [normalizeRecipientList] at h
  split at h
  · injection h with h
    exact Or.inl ⟨‹s = ""›, h.symm⟩
  · split at h
    · exact Except.noConfusion h
    · injection h with h
      exact Or.inr h.symm

theorem parseSendEmailArgs_ok {a b : RawSendEmailArgs}
    (h : parseSendEmailArgs a = .ok b) : b = a := by
  unfold parseSendEmailArgs at h
  split at h
  · injection h with h
    exact h.symm
  · exact Except.noConfusion h

theorem parseSendEmailArgs_error_code {a : RawSendEmailArgs} {e : McpError}
    (h : parseSendEmailArgs a = .error e) : e.code = .invalidParams := by
  unfold parseSendEmailArgs at h
  split at h
  · exact Except.noConfusion h
  · injection h with h
    subst h; rfl

theorem normalizeEmailArgs_error_code {a : RawSendEmailArgs} {e : McpError}
    (h : normalizeEmailArgs a = .error e) : e.code = .invalidParams := by
  cases h1 : normalizeRecipientList (some a.«to») "to" with
  | error e1 =>
    simp only [normalizeEmailArgs, h1] at h
    injection h with h
    subst h
    exact normalizeRecipientList_error_code h1
  | ok toList =>
    simp only [normalizeEmailArgs, h1] at h
    split at h
    · injection h with h
      subst h; rfl
    · cases h2 : normalizeRecipientList a.cc "cc" with
      | error e2 =>
        simp only [h2] at h
        injection h with h
        subst h
        exact normalizeRecipientList_error_code h2
      | ok ccList =>
        simp only [h2] at h
        cases h3 : normalizeRecipientList a.bcc "bcc" with
        | error e3 =>
          simp only [h3] at h
          injection h with h
          subst h
          exact normalizeRecipientList_error_code h3
        | ok bccList =>
          simp only [h3] at h
          cases h4 : sanitizeHeaderField a.subject "subject" with
          | error e4 =>
            simp only [h4] at h
            injection h with h
            subst h
            exact sanitizeHeaderField_error_code h4
          | ok subj =>
            simp only [h4] at h
            exact Except.noConfusion h

theorem normalizeEmailArgs_ok_stages {a : RawSendEmailArgs} {n : NormalizedEmailArgs}
    (h : normalizeEmailArgs a = .ok n) :
    ∃ toList ccList bccList subj,
      normalizeRecipientList (some a.«to») "to" = .ok toList ∧ toList ≠ [] ∧
      normalizeRecipientList a.cc "cc" = .ok ccList ∧
      normalizeRecipientList a.bcc "bcc" = .ok bccList ∧
      sanitizeHeaderField a.subject "subject" = .ok subj ∧
      n = ⟨toList, subj, a.body, a.isHtml == some true, ccList, bccList⟩ := by
  cases h1 : normalizeRecipientList (some a.«to») "to" with
  | error e1 => simp only [normalizeEmailArgs, h1] at h; exact Except.noConfusion h
  | ok toList =>
    simp only [normalizeEmailArgs, h1] at h
    split at h
    · exact Except.noConfusion h
    · rename_i hne
      cases h2 : normalizeRecipientList a.cc "cc" with
      | error e2 => simp only [h2] at h; exact Except.noConfusion h
      | ok ccList =>
        simp only [h2] at h
        cases h3 : normalizeRecipientList a.bcc "bcc" with
        | error e3 => simp only [h3] at h; exact Except.noConfusion h
        | ok bccList =>
          simp only [h3] at h
          cases h4 : sanitizeHeaderField a.subject "subject" with
          | error e4 => simp only [h4] at h; exact Except.noConfusion h
          | ok subj =>
            simp only [h4] at h
            injection h with h
            exact ⟨toList, ccList, bccList, subj, rfl, by simpa using hne, rfl, rfl, rfl, h.symm⟩

theorem normalizeEmailArgs_ok_noCRLF {a : RawSendEmailArgs} {n : NormalizedEmailArgs}
    (h : normalizeEmailArgs a = .ok n) :
    hasCRLF a.subject = false ∧ hasCRLF a.«to» = false ∧
      optHasCRLF a.cc = false ∧ optHasCRLF a.bcc = false := by
  obtain ⟨tl, cl, bl, sj, h1, hne, h2, h3, h4, hn⟩ := normalizeEmailArgs_ok_stages h
  exact ⟨(sanitizeHeaderField_ok h4).1, normalizeRecipientList_ok_noCRLF h1,
    normalizeRecipientList_opt_ok_noCRLF h2, normalizeRecipientList_opt_ok_noCRLF h3⟩

theorem normalizeEmailArgs_ok_to_nonempty {a : RawSendEmailArgs} {n : NormalizedEmailArgs}
    (h : normalizeEmailArgs a = .ok n) :
    ((jsSplitComma a.«to»).map jsTrim).filter (fun entry => entry.length > 0) ≠ [] := by
  obtain ⟨tl, cl, bl, sj, h1, hne, h2, h3, h4, hn⟩ := normalizeEmailArgs_ok_stages h
  rcases normalizeRecipientList_ok_cases h1 with ⟨heq, hnil⟩ | hval
  · exact absurd hnil hne
  · rw [← hval]; exact hne

/-- C2: the rate limiter with a positive finite limit L first rolls the
window over (resetting count and windowStart) when 60000 ms have elapsed,
then rejects with the configured limit in the message once count ≥ L, and
otherwise increments count and admits; with L = 2 the first two calls in a
window admit, the third fails, and a post-rollover call admits with count 1;
a non-positive or non-finite limit admits without touching the state. -/
theorem checkRateLimit_spec :
    (∀ (L now : Int) (st : RateLimiterState), 0 < L → 60000 ≤ now - st.windowStart →
      checkRateLimit (some L) now st = (.ok (), ⟨now, 1⟩)) ∧
    (∀ (L now : Int) (st : RateLimiterState), 0 < L → now - st.windowStart < 60000 →
      L ≤ (st.count : Int) →
      checkRateLimit (some L) now st =
        (.error ⟨.invalidRequest,
          "Rate limit exceeded (" ++ toString L ++ " emails per minute)"⟩, st)) ∧
    (∀ (L now : Int) (st : RateLimiterState), 0 < L → now - st.windowStart < 60000 →
      (st.count : Int) < L →
      checkRateLimit (some L) now st = (.ok (), ⟨st.windowStart, st.count + 1⟩)) ∧
    (∀ (L now : Int) (st : RateLimiterState), L ≤ 0 →
      checkRateLimit (some L) now st = (.ok (), st)) ∧
    (∀ (now : Int) (st : RateLimiterState), checkRateLimit none now st = (.ok (), st)) ∧
    (checkRateLimit (some 2) 0 ⟨0, 0⟩ = (.ok (), ⟨0, 1⟩) ∧
     checkRateLimit (some 2) 1 ⟨0, 1⟩ = (.ok (), ⟨0, 2⟩) ∧
     checkRateLimit (some 2) 2 ⟨0, 2⟩ =
       (.error ⟨.invalidRequest, "Rate limit exceeded (2 emails per minute)"⟩, ⟨0, 2⟩) ∧
     checkRateLimit (some 2) 60000 ⟨0, 2⟩ = (.ok (), ⟨60000, 1⟩)) := by
  refine ⟨?_, ?_, ?_, ?_, fun _ _ => rfl, by decide, by decide, by decide, by decide⟩
  · intro L now st hL hroll
    simp only [checkRateLimit]
    rw [if_neg (by omega : ¬L ≤ 0)]
    rw [if_pos hroll]
    rw [if_neg (by omega : ¬((0 : Nat) : Int) ≥ L)]
  · intro L now st hL hwin hcnt
    simp only [checkRateLimit]
    rw [if_neg (by omega : ¬L ≤ 0)]
    rw [if_neg (by omega : ¬now - st.windowStart ≥ 60000)]
    rw [if_pos hcnt]
  · intro L now st hL hwin hcnt
    simp only [checkRateLimit]
    rw [if_neg (by omega : ¬L ≤ 0)]
    rw [if_neg (by omega : ¬now - st.windowStart ≥ 60000)]
    rw [if_neg (by omega : ¬(st.count : Int) ≥ L)]
  · intro L now st hL
    simp only [checkRateLimit]
    rw [if_pos hL]

/-- C2 witness: with limit 2, a third admitted-path call in the same
window is rejected and the limiter state is left unchanged. -/
theorem checkRateLimit_spec_witness :
    checkRateLimit (some 2) 0 ⟨0, 2⟩ =
      (.error ⟨.invalidRequest, "Rate limit exceeded (2 emails per minute)"⟩, ⟨0, 2⟩) :=
  checkRateLimit_spec.2.1 2 0 ⟨0, 2⟩ (by decide) (by decide) (by decide)

/-- C3: recipient normalization yields the empty list on absent or empty
input; on CR/LF-free input it splits on commas, trims, drops blank pieces,
preserves the order of survivors (sublist of the trimmed pieces) and keeps
duplicates (counts preserved for non-blank entries); in particular
"a@x.com, a@x.com, b@x.com" normalizes to the duplicate-keeping 3-list. -/
theorem normalizeRecipientList_spec :
    (∀ f : String, normalizeRecipientList none f = .ok []) ∧
    (∀ f : String, normalizeRecipientList (some "") f = .ok []) ∧
    (∀ (f s : String) (l : List String), hasCRLF s = false →
      normalizeRecipientList (some s) f = .ok l →
      List.Sublist l ((jsSplitComma s).map jsTrim) ∧
      (∀ a ∈ l, 0 < a.length) ∧
      (∀ a : String, 0 < a.length →
        l.count a = ((jsSplitComma s).map jsTrim).count a)) ∧
    (∀ f : String, normalizeRecipientList (some "a@x.com, a@x.com, b@x.com") f =
      .ok ["a@x.com", "a@x.com", "b@x.com"]) := by
  refine ⟨fun _ => rfl, fun _ => rfl, ?_, fun _ => rfl⟩
  intro f s l _ h
  have hval : l = ((jsSplitComma s).map jsTrim).filter (fun entry => entry.length > 0) := by
    rcases normalizeRecipientList_ok_cases h with ⟨hs, hl⟩ | hval
    · subst hs; subst hl; decide
    · exact hval
  subst hval
  refine ⟨List.filter_sublist _, ?_, ?_⟩
  · intro a ha
    have := (List.mem_filter.mp ha).2
    simpa using this
  · intro a hlen
    exact List.count_filter (by simpa using hlen)

/-- C3 witness: the concrete duplicate-keeping example, via the general
count-preservation clause at the duplicated address. -/
theorem normalizeRecipientList_spec_witness :
    (["a@x.com", "a@x.com", "b@x.com"] : List String).count "a@x.com" =
      ((jsSplitComma "a@x.com, a@x.com, b@x.com").map jsTrim).count "a@x.com" :=
  ((normalizeRecipientList_spec.2.2.1 "to" "a@x.com, a@x.com, b@x.com"
      ["a@x.com", "a@x.com", "b@x.com"] (by decide) (by decide)).2.2) "a@x.com" (by decide)

/-- C8 counterexample: the code's default for an unrecognized minimum-TLS
version is "TLSv1.2", which is not the second-oldest of the four recognized
versions ("TLSv1.1"): the claim fails at input "SSLv3". -/
theorem normalizeTlsVersion_counterexample :
    normalizeTlsVersion "SSLv3" = "TLSv1.2" ∧
    allowedTlsVersions.get? 1 = some "TLSv1.1" ∧
    allowedTlsVersions.contains "SSLv3" = false ∧
    ("TLSv1.2" : String) ≠ "TLSv1.1" := by decide

/-- C8 (amended): an unrecognized minimum-TLS-version string defaults to
"TLSv1.2", the third-oldest (second-newest) of the four recognized
versions. -/
theorem normalizeTlsVersion_spec :
    (∀ v : String, allowedTlsVersions.contains v = false →
      normalizeTlsVersion v = "TLSv1.2") ∧
    allowedTlsVersions.get? 2 = some "TLSv1.2" := by
  refine ⟨?_, by decide⟩
  intro v hv
  unfold normalizeTlsVersion
  rw [hv]
  rfl

/-- C8 witness: the amended default at the unrecognized input "SSLv3". -/
theorem normalizeTlsVersion_spec_witness :
    normalizeTlsVersion "SSLv3" = "TLSv1.2" :=
  normalizeTlsVersion_spec.1 "SSLv3" (by decide)

/-- C9: any number of health_check calls with no intervening sends leaves
the rate-limiter state and the last-outcome slot unchanged. -/
theorem healthCheck_state_invariant :
    ∀ (verify : Except String Unit) (limit : Option Int) (allowList : List String)
      (iso : Int → String) (st : ServerState) (n : Nat),
      (fun s => (handleHealthCheck verify limit allowList iso s).2)^[n] st = st := by
  intro verify limit allowList iso st n
  induction n with
  | zero => rfl
  | succ k ih =>
      rw [Function.iterate_succ_apply]
      exact ih

/-- The MCP error code carried by a handler result, when it failed. -/
def resultErrorCode : Except McpError String → Option ErrorCode
  | .error e => some e.code
  | .ok _ => none

/-- C1: a send_email request whose subject, to, cc or bcc contains CR or LF
fails with an invalid-parameters error before the transport is invoked;
and on a CR/LF-free value, header sanitization returns the value with
leading/trailing whitespace removed. -/
theorem sendEmail_header_injection_spec :
    (∀ (allowList : List String) (limit : Option Int) (now sendTime : Int)
       (transport : Except String (Option String)) (args : RawSendEmailArgs)
       (st : ServerState),
      (hasCRLF args.subject || hasCRLF args.«to» ||
        optHasCRLF args.cc || optHasCRLF args.bcc) = true →
      resultErrorCode (handleSendEmail allowList limit now sendTime transport args st).result =
        some .invalidParams ∧
      (handleSendEmail allowList limit now sendTime transport args st).transportInvoked = false) ∧
    (∀ value fieldName : String, hasCRLF value = false →
      sanitizeHeaderField value fieldName = .ok (jsTrim value)) := by
  constructor
  · intro al lim now sT tr args st hcrlf
    cases hp : parseSendEmailArgs args with
    | error e =>
        refine ⟨?_, ?_⟩ <;> simp only [handleSendEmail, hp, resultErrorCode]
        rw [parseSendEmailArgs_error_code hp]
    | ok p =>
        have hpa := parseSendEmailArgs_ok hp
        subst hpa
        cases hn : normalizeEmailArgs p with
        | error e =>
            refine ⟨?_, ?_⟩ <;> simp only [handleSendEmail, hp, hn, resultErrorCode]
            rw [normalizeEmailArgs_error_code hn]
        | ok n =>
            exfalso
            obtain ⟨h1, h2, h3, h4⟩ := normalizeEmailArgs_ok_noCRLF hn
            rw [h1, h2, h3, h4] at hcrlf
            simp at hcrlf
  · intro v f hv
    unfold sanitizeHeaderField
    rw [hv]
    rfl

/-- C1 witness: a newline in the subject is rejected as invalid parameters
with the transport not invoked, and sanitization trims a clean subject. -/
theorem sendEmail_header_injection_spec_witness :
    (resultErrorCode (handleSendEmail [] (some 10) 0 5 (.ok none)
        ⟨"a@x.com", "Bad\nSubject", "B", none, none, none⟩ ⟨⟨0, 0⟩, none⟩).result =
      some .invalidParams ∧
     (handleSendEmail [] (some 10) 0 5 (.ok none)
        ⟨"a@x.com", "Bad\nSubject", "B", none, none, none⟩ ⟨⟨0, 0⟩, none⟩).transportInvoked =
      false) ∧
    sanitizeHeaderField "  Hello  " "subject" = .ok "Hello" :=
  ⟨sendEmail_header_injection_spec.1 [] (some 10) 0 5 (.ok none)
      ⟨"a@x.com", "Bad\nSubject", "B", none, none, none⟩ ⟨⟨0, 0⟩, none⟩ (by decide),
   sendEmail_header_injection_spec.2 "  Hello  " "subject" (by decide)⟩

/-- C4: with an empty allow set every recipient list passes; with a
non-empty set the guard succeeds iff every recipient's lower-cased form is
in the set, a failure names exactly the disallowed addresses in original
casing and input order, and the spec's scenario (to allowed, cc not)
fails naming b@x.com with the transport never invoked. -/
theorem enforceAllowList_spec :
    (∀ recipients : List String, enforceAllowList [] recipients = .ok ()) ∧
    (∀ (allowList recipients : List String), allowList ≠ [] →
      (enforceAllowList allowList recipients = .ok () ↔
        ∀ r ∈ recipients, allowList.contains (jsToLower r) = true)) ∧
    (∀ (allowList recipients : List String), allowList ≠ [] →
      recipients.filter (fun recipient => !(allowList.contains (jsToLower recipient))) ≠ [] →
      enforceAllowList allowList recipients =
        .error ⟨.invalidRequest,
          "Recipient(s) not permitted by allow list: " ++ String.intercalate ", "
            (recipients.filter fun recipient => !(allowList.contains (jsToLower recipient)))⟩) ∧
    (∀ (st : ServerState) (limit : Option Int) (now sendTime : Int)
       (transport : Except String (Option String)),
      handleSendEmail ["a@x.com"] limit now sendTime transport
          ⟨"a@x.com", "Hi", "B", none, some "b@x.com", none⟩ st =
        ⟨.error ⟨.invalidRequest, "Recipient(s) not permitted by allow list: b@x.com"⟩,
         st, false⟩) := by
  refine ⟨fun _ => rfl, ?_, ?_, fun _ _ _ _ _ => rfl⟩
  · intro al recips hal
    have hal' : al.isEmpty = false := by
      cases al with
      | nil => exact absurd rfl hal
      | cons a as => rfl
    unfold enforceAllowList
    rw [hal', if_neg (show ¬(false = true) by decide)]
    constructor
    · intro h r hr
      by_cases hf :
          (recips.filter fun recipient => !(al.contains (jsToLower recipient))).isEmpty = true
      · have := List.filter_eq_nil_iff.mp (List.isEmpty_iff.mp hf) r hr
        simpa using this
      · rw [if_neg hf] at h
        exact Except.noConfusion h
    · intro hall
      have hnil : (recips.filter fun recipient => !(al.contains (jsToLower recipient))) = [] :=
        List.filter_eq_nil_iff.mpr fun r hr => by rw [hall r hr]; decide
      rw [hnil]
      rfl
  · intro al recips hal hfil
    have hal' : al.isEmpty = false := by
      cases al with
      | nil => exact absurd rfl hal
      | cons a as => rfl
    unfold enforceAllowList
    rw [hal', if_neg (show ¬(false = true) by decide)]
    rw [if_neg (by simpa [List.isEmpty_iff] using hfil)]

/-- C4 witness: the spec scenario at concrete state, via the error-shape
clause of the guard. -/
theorem enforceAllowList_spec_witness :
    enforceAllowList ["a@x.com"] ["a@x.com", "b@x.com"] =
      .error ⟨.invalidRequest, "Recipient(s) not permitted by allow list: b@x.com"⟩ := by
  have h := enforceAllowList_spec.2.2.1 ["a@x.com"] ["a@x.com", "b@x.com"]
    (by decide) (by decide)
  simpa using h

/-- C5: a send_email input whose `to` field normalizes to the empty
sequence fails with an invalid-parameters error and the transport is
never invoked. -/
theorem sendEmail_empty_to_spec :
    ∀ (allowList : List String) (limit : Option Int) (now sendTime : Int)
      (transport : Except String (Option String)) (args : RawSendEmailArgs)
      (st : ServerState),
      ((jsSplitComma args.«to»).map jsTrim).filter (fun entry => entry.length > 0) = [] →
      resultErrorCode (handleSendEmail allowList limit now sendTime transport args st).result =
        some .invalidParams ∧
      (handleSendEmail allowList limit now sendTime transport args st).transportInvoked = false := by
  intro al lim now sT tr args st hempty
  cases hp : parseSendEmailArgs args with
  | error e =>
      refine ⟨?_, ?_⟩ <;> simp only [handleSendEmail, hp, resultErrorCode]
      rw [parseSendEmailArgs_error_code hp]
  | ok p =>
      have hpa := parseSendEmailArgs_ok hp
      subst hpa
      cases hn : normalizeEmailArgs p with
      | error e =>
          refine ⟨?_, ?_⟩ <;> simp only [handleSendEmail, hp, hn, resultErrorCode]
          rw [normalizeEmailArgs_error_code hn]
      | ok n =>
          exact absurd hempty (normalizeEmailArgs_ok_to_nonempty hn)

/-- C5 witness: a whitespace-and-commas `to` value is rejected as invalid
parameters without reaching the transport. -/
theorem sendEmail_empty_to_spec_witness :
    resultErrorCode (handleSendEmail [] (some 10) 0 5 (.ok none)
        ⟨" , ,", "Hi", "B", none, none, none⟩ ⟨⟨0, 0⟩, none⟩).result =
      some .invalidParams ∧
    (handleSendEmail [] (some 10) 0 5 (.ok none)
        ⟨" , ,", "Hi", "B", none, none, none⟩ ⟨⟨0, 0⟩, none⟩).transportInvoked = false :=
  sendEmail_empty_to_spec [] (some 10) 0 5 (.ok none)
    ⟨" , ,", "Hi", "B", none, none, none⟩ ⟨⟨0, 0⟩, none⟩ (by decide)

/-- C6: a send attempt that reaches the transport overwrites the
last-outcome slot with a success record (timestamp and optional message id)
or an error record (timestamp and failure text); a transport failure is
re-signaled as an internal error wrapping the transport message; and the
health report's last-send section renders exactly that outcome and
timestamp. -/
theorem sendEmail_records_outcome :
    ∀ (allowList : List String) (limit : Option Int) (now sendTime : Int)
      (transport : Except String (Option String)) (args : RawSendEmailArgs)
      (st : ServerState),
      (handleSendEmail allowList limit now sendTime transport args st).transportInvoked = true →
      (handleSendEmail allowList limit now sendTime transport args st).state.lastSendResult =
        some (match transport with
          | .ok mid => .success sendTime mid
          | .error m => .failure sendTime m) ∧
      (∀ m : String, transport = .error m →
        (handleSendEmail allowList limit now sendTime transport args st).result =
          .error ⟨.internalError, "Failed to send email: " ++ m⟩) ∧
      (∀ iso : Int → String,
        lastSendInfo iso
            (handleSendEmail allowList limit now sendTime transport args st).state.lastSendResult =
          match transport with
          | .ok mid => "success at " ++ iso sendTime ++
              (match mid with
               | some d => if d = "" then "" else " (" ++ d ++ ")"
               | none => "")
          | .error m => "error at " ++ iso sendTime ++ ": " ++ m) := by
  intro al lim now sT tr args st hinv
  cases hp : parseSendEmailArgs args with
  | error e => simp only [handleSendEmail, hp] at hinv; exact Bool.noConfusion hinv
  | ok p =>
    cases hn : normalizeEmailArgs p with
    | error e => simp only [handleSendEmail, hp, hn] at hinv; exact Bool.noConfusion hinv
    | ok n =>
      cases he : enforceAllowList al (n.«to» ++ n.cc ++ n.bcc) with
      | error e =>
          simp only [handleSendEmail, hp, hn, he] at hinv
          exact Bool.noConfusion hinv
      | ok u =>
        rcases hr : checkRateLimit lim now st.rateLimiter with ⟨res, rl⟩
        cases res with
        | error e =>
            simp only [handleSendEmail, hp, hn, he, hr] at hinv
            exact Bool.noConfusion hinv
        | ok u2 =>
          cases tr with
          | ok mid =>
              refine ⟨?_, ?_, ?_⟩
              · simp only [handleSendEmail, hp, hn, he, hr]
              · intro m hm
                exact Except.noConfusion hm
              · intro iso
                simp only [handleSendEmail, hp, hn, he, hr, lastSendInfo]
          | error m =>
              refine ⟨?_, ?_, ?_⟩
              · simp only [handleSendEmail, hp, hn, he, hr]
              · intro m2 hm
                injection hm with hm
                subst hm
                simp only [handleSendEmail, hp, hn, he, hr]
              · intro iso
                simp only [handleSendEmail, hp, hn, he, hr, lastSendInfo]

/-- C6 witness: a transport failure at concrete inputs records an error
outcome with the send timestamp and re-signals an internal error wrapping
the transport message. -/
theorem sendEmail_records_outcome_witness :
    (handleSendEmail [] (some 10) 0 5 (.error "boom")
        ⟨"a@x.com", "Hi", "B", none, none, none⟩ ⟨⟨0, 0⟩, none⟩).state.lastSendResult =
      some (.failure 5 "boom") ∧
    (handleSendEmail [] (some 10) 0 5 (.error "boom")
        ⟨"a@x.com", "Hi", "B", none, none, none⟩ ⟨⟨0, 0⟩, none⟩).result =
      .error ⟨.internalError, "Failed to send email: boom"⟩ :=
  ⟨(sendEmail_records_outcome [] (some 10) 0 5 (.error "boom")
      ⟨"a@x.com", "Hi", "B", none, none, none⟩ ⟨⟨0, 0⟩, none⟩ (by decide)).1,
   (sendEmail_records_outcome [] (some 10) 0 5 (.error "boom")
      ⟨"a@x.com", "Hi", "B", none, none, none⟩ ⟨⟨0, 0⟩, none⟩ (by decide)).2.1 "boom" rfl⟩

/-- C7: health_check never returns an error to the caller; a failing
connectivity probe is rendered as "error: <message>" in the first report
line while the other three sections are produced unchanged. -/
theorem healthCheck_never_errors :
    (∀ (verify : Except String Unit) (limit : Option Int) (allowList : List String)
       (iso : Int → String) (st : ServerState),
      (handleHealthCheck verify limit allowList iso st).1 =
        .ok (buildHealthReport verify limit allowList iso st)) ∧
    (∀ (m : String) (limit : Option Int) (allowList : List String)
       (iso : Int → String) (st : ServerState),
      buildHealthReport (.error m) limit allowList iso st =
        "SMTP: " ++ ("error: " ++ m) ++ "\n" ++ healthReportTail limit allowList iso st ∧
      buildHealthReport (.ok ()) limit allowList iso st =
        "SMTP: " ++ "ok" ++ "\n" ++ healthReportTail limit allowList iso st) :=
  ⟨fun _ _ _ _ _ => rfl, fun _ _ _ _ _ => ⟨rfl, rfl⟩⟩

/-- C10: a send_email call that does not reach the transport (schema,
header-injection, empty-to, allow-list or rate-limit rejection) leaves the
last-outcome slot exactly as it was. -/
theorem sendEmail_rejected_preserves_outcome :
    ∀ (allowList : List String) (limit : Option Int) (now sendTime : Int)
      (transport : Except String (Option String)) (args : RawSendEmailArgs)
      (st : ServerState),
      (handleSendEmail allowList limit now sendTime transport args st).transportInvoked = false →
      (handleSendEmail allowList limit now sendTime transport args st).state.lastSendResult =
        st.lastSendResult := by
  intro al lim now sT tr args st hinv
  cases hp : parseSendEmailArgs args with
  | error e => simp only [handleSendEmail, hp]
  | ok p =>
    cases hn : normalizeEmailArgs p with
    | error e => simp only [handleSendEmail, hp, hn]
    | ok n =>
      cases he : enforceAllowList al (n.«to» ++ n.cc ++ n.bcc) with
      | error e => simp only [handleSendEmail, hp, hn, he]
      | ok u =>
        rcases hr : checkRateLimit lim now st.rateLimiter with ⟨res, rl⟩
        cases res with
        | error e => simp only [handleSendEmail, hp, hn, he, hr]
        | ok u2 =>
          cases tr with
          | ok mid =>
              simp only [handleSendEmail, hp, hn, he, hr] at hinv
              exact Bool.noConfusion hinv
          | error m =>
              simp only [handleSendEmail, hp, hn, he, hr] at hinv
              exact Bool.noConfusion hinv

/-- C10 witness: a schema-rejected call (empty `to`) leaves a previously
recorded success outcome in place. -/
theorem sendEmail_rejected_preserves_outcome_witness :
    (handleSendEmail [] (some 10) 0 5 (.ok none)
        ⟨"", "Hi", "B", none, none, none⟩
        ⟨⟨0, 0⟩, some (.success 1 none)⟩).state.lastSendResult =
      some (.success 1 none) :=
  sendEmail_rejected_preserves_outcome [] (some 10) 0 5 (.ok none)
    ⟨"", "Hi", "B", none, none, none⟩ ⟨⟨0, 0⟩, some (.success 1 none)⟩ (by decide)

end ProtonMcp
